import Mathlib

/-!
Verification development for the ELN `compare` tool (`compare.py`).

The Python code is shallowly embedded: Python dicts become insertion-ordered
association lists (`Dict`), build records become the `Build` structure,
classification records become `Record`, and the two classes `BuildSource` and
`Comparison` become structures with their methods as Lean functions.  Remote
backend traffic is made observable by an explicit query counter on
`BuildSource.get_build`.
-/

set_option autoImplicit false
set_option linter.unusedVariables false

/-- Insertion-ordered association list standing for a Python `dict` with
string keys.  Keys are unique in every dict the program actually builds;
theorems that need that fact take it as a `List.Nodup` hypothesis. -/
abbrev Dict (α : Type) := List (String × α)

/-- `k in d` / `d[k]` lookup: first binding of the key, scanning left to
right (a Python dict holds at most one binding per key). -/
def dictLookup {α : Type} (k : String) : Dict α → Option α
  | [] => none
  | (k1, v) :: rest => if k1 = k then some v else dictLookup k rest

/-- `d[k] = v`: replace the binding in place if the key exists, else append
at the end — Python dict assignment preserves insertion order this way. -/
def dictInsert {α : Type} (k : String) (v : α) : Dict α → Dict α
  | [] => [(k, v)]
  | (k1, v1) :: rest =>
    if k1 = k then (k, v) :: rest else (k1, v1) :: dictInsert k v rest

/-- `list(d.keys())` in insertion order. -/
def dictKeys {α : Type} (d : Dict α) : List String := d.map Prod.fst

/-- `d.update(other)`: assign every binding of `other` into `d`, in order. -/
def dictUpdate {α : Type} (d other : Dict α) : Dict α :=
  other.foldl (fun acc kv => dictInsert kv.1 kv.2 acc) d

/-- A koji build record, restricted to the fields `compare.py` reads:
`name`, `nvr`, `version`, `release`. -/
structure Build where
  name : String
  nvr : String
  version : String
  release : String
deriving DecidableEq, Repr

/-- The per-package comparison dictionary produced by `Comparison.compare_one`
and `Comparison.add_extras`: `{"status": ..., "nvr1": ..., "nvr2": ...}`,
with `None` rendered as `Option.none`. -/
structure Record where
  status : String
  nvr1 : Option String
  nvr2 : Option String
deriving DecidableEq, Repr

/-! ## The `evr` normalization (`re.sub(".(fc|eln|el)[0-9]*", "", release)`)

`re.sub` scans the subject left to right, replacing every non-overlapping
match with the empty string.  The pattern is: any character except a newline
(the unescaped `.`), then the first of the alternatives `fc`, `eln`, `el`
that matches, then a maximal (possibly empty) run of ASCII digits. -/

/-- Try to match `(fc|eln|el)[0-9]*` at the head of `l`; on success return
the rest of the input after the (greedy) match.  Alternative order is the
regex's: `fc`, then `eln`, then `el`. -/
def tagAt (l : List Char) : Option (List Char) :=
  if l.take 2 = ['f', 'c'] then some ((l.drop 2).dropWhile Char.isDigit)
  else if l.take 3 = ['e', 'l', 'n'] then some ((l.drop 3).dropWhile Char.isDigit)
  else if l.take 2 = ['e', 'l'] then some ((l.drop 2).dropWhile Char.isDigit)
  else none

/-- One `re.sub` scan with explicit fuel (any fuel at least the length of the
list gives the fixed behaviour; the fuel keeps the recursion structural so
that concrete inputs evaluate by `rfl`/`decide`).  At each position: if the
head character can serve as the `.` (it is not a newline) and the tag matches
right after it, the whole match is dropped and scanning resumes after it;
otherwise the character is kept. -/
def subDistF : Nat → List Char → List Char
  | 0, l => l
  | _, [] => []
  | fuel + 1, c :: rest =>
    if c = '\n' then c :: subDistF fuel rest
    else
      match tagAt rest with
      | some rest1 => subDistF fuel rest1
      | none => c :: subDistF fuel rest

/-- `re.sub(".(fc|eln|el)[0-9]*", "", ·)` on a character list. -/
def subDist (l : List Char) : List Char := subDistF l.length l

/-- `evr(build)`: epoch forced to `"0"`, version kept, release passed through
the `re.sub` above. -/
def evr (build : Build) : String × String × String :=
  ("0", build.version, String.mk (subDist build.release.data))

/-- Spec-side predicate: does the scan find a match anywhere in `l`?  Mirrors
the positions `subDistF` inspects; used to state when a release is left
unchanged. -/
def hasTag : List Char → Bool
  | [] => false
  | c :: rest => (decide (c ≠ '\n') && (tagAt rest).isSome) || hasTag rest

/-! ## RPM label comparison

`rpm.labelCompare` is an external library call; the spec (section 4.2)
defines the algorithm the engine relies on, and it is modelled from those
words below. -/

/-- Numeric value of a digit segment (leading zeros are immaterial, as in
RPM's numeric segment comparison). -/
def natOf (l : List Char) : Nat :=
  l.foldl (fun n c => n * 10 + (c.toNat - '0'.toNat)) 0

/-- Modelled from the spec: split a version/release string into maximal
alternating runs of digit and non-digit characters (fuel-structural so it
evaluates; each step consumes at least one character). -/
def rpmSegmentsF : Nat → List Char → List (List Char)
  | 0, _ => []
  | _, [] => []
  | fuel + 1, c :: rest =>
    ((c :: rest).takeWhile (fun x => x.isDigit == c.isDigit)) ::
      rpmSegmentsF fuel ((c :: rest).dropWhile (fun x => x.isDigit == c.isDigit))

/-- Maximal alternating digit/non-digit segments of a string. -/
def rpmSegments (l : List Char) : List (List Char) := rpmSegmentsF l.length l

/-- Modelled from the spec: compare one segment pair — numerically when both
segments are numeric, lexicographically otherwise. -/
def segCompare (a b : List Char) : Ordering :=
  if a.all Char.isDigit && b.all Char.isDigit then compare (natOf a) (natOf b)
  else compare (String.mk a) (String.mk b)

/-- Modelled from the spec: segment-wise comparison, a missing trailing
segment comparing lower. -/
def segsCompare : List (List Char) → List (List Char) → Ordering
  | [], [] => .eq
  | [], _ :: _ => .lt
  | _ :: _, [] => .gt
  | a :: as, b :: bs =>
    match segCompare a b with
    | .eq => segsCompare as bs
    | o => o

/-- Modelled from the spec: RPM-style comparison of two version strings. -/
def vercmp (x y : String) : Ordering := segsCompare (rpmSegments x.data) (rpmSegments y.data)

/-- Modelled from the spec: `rpm.labelCompare` on two (epoch, version,
release) triples — epoch first, then version, then release. -/
def labelCompare (a b : String × String × String) : Ordering :=
  match vercmp a.1 b.1 with
  | .eq =>
    match vercmp a.2.1 b.2.1 with
    | .eq => vercmp a.2.2 b.2.2
    | o => o
  | o => o

/-- `Ordering` to the `-1 / 0 / 1` integers `rpm.labelCompare` returns. -/
def ordToInt : Ordering → Int
  | .lt => -1
  | .eq => 0
  | .gt => 1

/-- `compare_builds(build1, build2)`: normalize both with `evr`, then RPM
label comparison. -/
def compare_builds (build1 build2 : Build) : Int :=
  ordToInt (labelCompare (evr build1) (evr build2))

/-! ## `BuildSource`

The koji backend is abstracted to the two queries the class issues:
`listTagged(tag, package=p, latest=True)` (`byPackage`) and
`listTagged(tag, latest=True)` (`allBuilds`). -/

/-- A build source: backend handle plus the `self.cache` dict, which
`__init__` always initializes to the empty dict and `make_cache` may fill. -/
structure BuildSource where
  byPackage : String → List Build
  allBuilds : List Build
  cache : Dict Build

/-- `get_build(package)`.  The second component counts remote backend queries
issued by the call (the `listTagged` on line 97): `if self.cache:` is a
Python truthiness test, so the remote branch is taken exactly when the cache
dict is empty. -/
def BuildSource.get_build (s : BuildSource) (package : String) : Option Build × Nat :=
  if s.cache ≠ [] then
    (dictLookup package s.cache, 0)
  else
    match s.byPackage package with
    | [] => (none, 1)
    | b :: _ => (some b, 1)

/-- `make_cache()`: fetch all builds from the tag and key them by package
name (assignment into the starting `self.cache`). -/
def BuildSource.make_cache (s : BuildSource) : BuildSource :=
  { s with cache := s.allBuilds.foldl (fun c b => dictInsert b.name b c) s.cache }

/-! ## `Comparison`

`__init__` downloads the placeholder list and reads the nosync list; both
are plain inputs here (`pplace`, `nosync`).  `compare_one` and
`compare_content` read the module-global variable `content` (not
`self.content`): the globals visible to the module are passed explicitly as
`Globals`. -/

/-- The module-global bindings `compare.py` reads from inside the class:
`content` (line 164 and the loop on line 236).  The globals `source1` and
`source2` appear only inside log messages and are omitted. -/
structure Globals where
  content : List String

/-- The comparison engine state. -/
structure Comparison where
  content : List String
  source1 : BuildSource
  source2 : BuildSource
  pplace : List String
  nosync : List String
  results : Dict Record

/-- The class attribute `Comparison.status`: an `int -> str` dict. -/
def Comparison.statusOf (k : Int) : Option String :=
  if k = -5 then some "PPLACE"
  else if k = -4 then some "NOSYNC"
  else if k = -3 then some "EXTRA"
  else if k = -2 then some "ERROR"
  else if k = -1 then some "NEW"
  else if k = 0 then some "SAME"
  else if k = 1 then some "OLD"
  else if k = 2 then some "NONE"
  else none

/-- `compare_one(package)`, instrumented: the second component counts how
many `get_build` calls the invocation performs.  The body mirrors the
source: the warning when the package is not in the global content set has no
semantic effect; then the memo check on `self.results` (note the method
*returns* without ever storing into `self.results`); then the two
unconditional `get_build` calls; then the rule chain. -/
def Comparison.compare_oneAcc (C : Comparison) (g : Globals) (package : String) :
    Record × Nat :=
  match dictLookup package C.results with
  | some r => (r, 0)
  | none =>
    let build1 := (C.source1.get_build package).1
    let build2 := (C.source2.get_build package).1
    if package ∈ C.pplace then
      ({ status := (Comparison.statusOf (-5)).getD "",
         nvr1 := build1.map Build.nvr, nvr2 := build2.map Build.nvr }, 2)
    else if package ∈ C.nosync then
      ({ status := (Comparison.statusOf (-4)).getD "",
         nvr1 := build1.map Build.nvr, nvr2 := build2.map Build.nvr }, 2)
    else
      match build1 with
      | none =>
        ({ status := (Comparison.statusOf (-2)).getD "",
           nvr1 := none, nvr2 := build2.map Build.nvr }, 2)
      | some b1 =>
        match build2 with
        | none =>
          ({ status := (Comparison.statusOf 2).getD "",
             nvr1 := some b1.nvr, nvr2 := none }, 2)
        | some b2 =>
          ({ status := (Comparison.statusOf (compare_builds b1 b2)).getD "",
             nvr1 := some b1.nvr, nvr2 := some b2.nvr }, 2)

/-- `compare_one(package)`: the record the method returns. -/
def Comparison.compare_one (C : Comparison) (g : Globals) (package : String) : Record :=
  (C.compare_oneAcc g package).1

/-- One loop body of `compare_content`:
`self.results[package] = self.compare_one(package)`. -/
def Comparison.classify_store (C : Comparison) (g : Globals) (package : String) :
    Comparison :=
  { C with results := dictInsert package (C.compare_one g package) C.results }

/-- `compare_content()`: classify and store every placeholder package, then
every package of the module-global `content` (the loop on line 236 iterates
the global, not `self.content`). -/
def Comparison.compare_content (C : Comparison) (g : Globals) : Comparison :=
  let C1 := C.pplace.foldl (fun acc p => acc.classify_store g p) C
  g.content.foldl (fun acc p => acc.classify_store g p) C1

/-- `add_extras()`: build the `extras` dict from source2's cache, merge it
into `self.results` with `dict.update`, and return it. -/
def Comparison.add_extras (C : Comparison) : Dict Record × Comparison :=
  let extras := C.source2.cache.foldl
    (fun ex pb =>
      if pb.1 ∉ C.content ∧ pb.1 ∉ C.pplace then
        dictInsert pb.1
          { status := (Comparison.statusOf (-3)).getD "",
            nvr1 := none, nvr2 := some pb.2.nvr } ex
      else ex)
    []
  (extras, { C with results := dictUpdate C.results extras })

/-- Sum of the values of a `str -> int` dict. -/
def sumValues (d : Dict Nat) : Nat := (d.map Prod.snd).sum

/-- `count()`: tally records by status, then assign
`stats["total"] = sum(stats.values())`. -/
def Comparison.count (C : Comparison) : Dict Nat :=
  let stats := C.results.foldl
    (fun st pr => dictInsert pr.2.status ((dictLookup pr.2.status st).getD 0 + 1) st)
    []
  dictInsert "total" (sumValues stats) stats

/-! ## Spec-side definitions

These follow the specification's words, for comparison with the embedded
code. -/

/-- The spec's error taxonomy entry relevant here (section 7). -/
inductive CompareError where
  | UnsupportedExtrasMode
deriving DecidableEq, Repr

/-- Follows the spec's words: `detect_extras()` must fail fast with
`UnsupportedExtrasMode` when source2 has no cache, before any work is done,
and otherwise behave as the extras pass. -/
def detect_extras_spec (C : Comparison) : Except CompareError (Dict Record × Comparison) :=
  if C.source2.cache = [] then .error .UnsupportedExtrasMode
  else .ok C.add_extras

/-- Two successive `compare_one` invocations on the same package.  The
source method mutates nothing (it only reads `self.results`), so the second
invocation runs on the same state; the pair collects the `get_build` call
counts of the first and of the second invocation. -/
def classifyTwiceAccesses (C : Comparison) (g : Globals) (package : String) : Nat × Nat :=
  ((C.compare_oneAcc g package).2, (C.compare_oneAcc g package).2)

/-! ## Dictionary lemmas -/

theorem dictLookup_dictInsert_self {α : Type} (k : String) (v : α) (d : Dict α) :
    dictLookup k (dictInsert k v d) = some v := by
  induction d with
  | nil => simp [dictInsert, dictLookup]
  | cons kv rest ih =>
    obtain ⟨k1, v1⟩ := kv
    by_cases h : k1 = k
    · subst h
      simp [dictInsert, dictLookup]
    · simp [dictInsert, dictLookup, h, ih]

theorem dictLookup_dictInsert_ne {α : Type} (k q : String) (v : α) (d : Dict α)
    (h : q ≠ k) : dictLookup q (dictInsert k v d) = dictLookup q d := by
  have hkq : ¬ k = q := Ne.symm h
  induction d with
  | nil => simp [dictInsert, dictLookup, hkq]
  | cons kv rest ih =>
    obtain ⟨k1, v1⟩ := kv
    by_cases h1 : k1 = k
    · subst h1
      simp [dictInsert, dictLookup, hkq]
    · simp only [dictInsert, if_neg h1, dictLookup]
      by_cases h2 : k1 = q <;> simp [h2, ih]

theorem dictKeys_nil {α : Type} : dictKeys ([] : Dict α) = [] := rfl

theorem dictKeys_cons {α : Type} (k : String) (v : α) (d : Dict α) :
    dictKeys ((k, v) :: d) = k :: dictKeys d := rfl

theorem mem_dictKeys_dictInsert {α : Type} (p k : String) (v : α) (d : Dict α) :
    p ∈ dictKeys (dictInsert k v d) ↔ p = k ∨ p ∈ dictKeys d := by
  induction d with
  | nil => simp [dictInsert, dictKeys]
  | cons kv rest ih =>
    obtain ⟨k1, v1⟩ := kv
    by_cases h : k1 = k
    · subst h
      have e1 : dictInsert k1 v ((k1, v1) :: rest) = (k1, v) :: rest := by
        simp [dictInsert]
      rw [e1, dictKeys_cons, dictKeys_cons]
      simp only [List.mem_cons]
      tauto
    · have e1 : dictInsert k v ((k1, v1) :: rest) = (k1, v1) :: dictInsert k v rest := by
        simp [dictInsert, h]
      rw [e1, dictKeys_cons, dictKeys_cons]
      simp only [List.mem_cons]
      rw [ih]
      tauto

theorem dictInsert_fresh {α : Type} (k : String) (v : α) (d : Dict α)
    (h : k ∉ dictKeys d) : dictInsert k v d = d ++ [(k, v)] := by
  induction d with
  | nil => simp [dictInsert]
  | cons kv rest ih =>
    obtain ⟨k1, v1⟩ := kv
    simp only [dictKeys, List.map_cons, List.mem_cons] at h
    push_neg at h
    have hne : ¬ k1 = k := fun hh => h.1 hh.symm
    simp only [dictInsert, if_neg hne, List.cons_append, List.cons.injEq, true_and]
    exact ih h.2

theorem dictLookup_dictUpdate_not_mem {α : Type} (p : String) (other d : Dict α)
    (h : p ∉ dictKeys other) :
    dictLookup p (dictUpdate d other) = dictLookup p d := by
  induction other generalizing d with
  | nil => rfl
  | cons kv rest ih =>
    obtain ⟨k1, v1⟩ := kv
    simp only [dictKeys, List.map_cons, List.mem_cons] at h
    push_neg at h
    show dictLookup p (dictUpdate (dictInsert k1 v1 d) rest) = dictLookup p d
    rw [ih (dictInsert k1 v1 d) h.2, dictLookup_dictInsert_ne _ _ _ _ h.1]

theorem sumValues_bump (d : Dict Nat) (k : String) :
    sumValues (dictInsert k ((dictLookup k d).getD 0 + 1) d) = sumValues d + 1 := by
  induction d with
  | nil => simp [dictLookup, dictInsert, sumValues]
  | cons kv rest ih =>
    obtain ⟨k1, v1⟩ := kv
    by_cases h : k1 = k
    · subst h
      simp [dictLookup, dictInsert, sumValues]
      omega
    · simp only [dictLookup, if_neg h, dictInsert, sumValues, List.map_cons,
        List.sum_cons] at *
      omega

theorem sumValues_count_fold (l : List (String × Record)) (st : Dict Nat) :
    sumValues (l.foldl
      (fun st1 pr => dictInsert pr.2.status ((dictLookup pr.2.status st1).getD 0 + 1) st1)
      st) = sumValues st + l.length := by
  induction l generalizing st with
  | nil => simp
  | cons pr rest ih =>
    simp only [List.foldl_cons, List.length_cons]
    rw [ih, sumValues_bump]
    omega

/-! ## C1 — extras pass on a source with no cache -/

/-- A live (uncached) build source that knows no builds. -/
def liveSourceC1 : BuildSource :=
  { byPackage := fun _ => [], allBuilds := [], cache := [] }

/-- A comparison whose `source2` has no cache and whose results map already
holds one record. -/
def compC1 : Comparison :=
  { content := [], source1 := liveSourceC1, source2 := liveSourceC1,
    pplace := [], nosync := [],
    results := [("x", { status := "SAME", nvr1 := none, nvr2 := none })] }

/-- C1 counterexample: on a comparison whose `source2` has no cache,
`add_extras` does not raise `UnsupportedExtrasMode` — it completes normally
with an empty extras map and unchanged results, while the spec-side
`detect_extras_spec` demands the error.  The claim that the call "raises an
UnsupportedExtrasMode error" is therefore false of the code. -/
theorem add_extras_no_error_counterexample :
    compC1.add_extras.1 = [] ∧
    compC1.add_extras.2.results = compC1.results ∧
    detect_extras_spec compC1 = .error .UnsupportedExtrasMode :=
  ⟨rfl, rfl, rfl⟩

/-- C1 (amended): for every comparison whose `source2` has no cache,
`add_extras` raises nothing; it returns an empty extras mapping and leaves
`results` unmodified. -/
theorem add_extras_empty_cache (C : Comparison) (h : C.source2.cache = []) :
    C.add_extras.1 = [] ∧ C.add_extras.2.results = C.results := by
  unfold Comparison.add_extras
  rw [h]
  exact ⟨rfl, rfl⟩

/-- C1 witness: the amended statement evaluated on `compC1`. -/
theorem add_extras_empty_cache_witness :
    compC1.add_extras.1 = [] ∧ compC1.add_extras.2.results = compC1.results :=
  add_extras_empty_cache compC1 rfl

/-! ## C4 — cached-mode `get_build` -/

/-- A build known only to the live backend. -/
def buildC4 : Build := { name := "p", nvr := "p-1.0-1", version := "1.0", release := "1" }

/-- A source whose bulk enumeration is empty but whose per-package backend
query does find a build. -/
def sourceC4 : BuildSource :=
  { byPackage := fun _ => [buildC4], allBuilds := [], cache := [] }

/-- C4 counterexample: after `make_cache` on a tag with no builds the cache
is the empty dict, which is falsy in `if self.cache:` — so `get_build`
issues a remote query (count 1) and returns the backend's build instead of
answering `absent` from the cache.  This refutes "never issues a remote
backend query — including when the bulk fetch populated an empty cache". -/
theorem get_build_after_empty_bulk_counterexample :
    sourceC4.make_cache.cache = [] ∧
    sourceC4.make_cache.get_build "p" = (some buildC4, 1) :=
  ⟨rfl, rfl⟩

/-- C4 (amended): for every source whose cache is nonempty, `get_build`
answers solely from the cache — the cached record on a hit, `none` on a
miss — and issues no remote query. -/
theorem get_build_cached (s : BuildSource) (p : String) (h : s.cache ≠ []) :
    s.get_build p = (dictLookup p s.cache, 0) := by
  unfold BuildSource.get_build
  rw [if_pos h]

/-- A source with a nonempty cache. -/
def sourceC4w : BuildSource :=
  { byPackage := fun _ => [buildC4], allBuilds := [],
    cache := [("q", buildC4)] }

/-- C4 witness: the amended statement evaluated on a concrete cached
source. -/
theorem get_build_cached_witness :
    sourceC4w.get_build "p" = (dictLookup "p" sourceC4w.cache, 0) :=
  get_build_cached sourceC4w "p" (by decide)

/-! ## C9 — `count()["total"]` equals the number of stored keys -/

/-- C9: for every comparison state whose results dict has unique keys (the
dict invariant), the `"total"` entry of `count()` equals the number of keys
of `results` — the per-status tallies sum to the size of the map. -/
theorem count_total (C : Comparison) (h : (dictKeys C.results).Nodup) :
    dictLookup "total" C.count = some (dictKeys C.results).length := by
  unfold Comparison.count
  rw [dictLookup_dictInsert_self, sumValues_count_fold]
  simp [sumValues, dictKeys]

/-- A comparison with two stored records. -/
def compC9 : Comparison :=
  { content := [], source1 := liveSourceC1, source2 := liveSourceC1,
    pplace := [], nosync := [],
    results := [("a", { status := "SAME", nvr1 := some "a-1-1", nvr2 := some "a-1-1" }),
                ("b", { status := "NONE", nvr1 := some "b-1-1", nvr2 := none })] }

/-- C9 witness: the statement evaluated on a concrete two-record state. -/
theorem count_total_witness :
    dictLookup "total" compC9.count = some (dictKeys compC9.results).length :=
  count_total compC9 (by decide)

/-! ## C5 — the rule chain of `compare_one` on a fresh package -/

/-- The claim's mapping of the comparator result: -1 to NEW, 0 to SAME,
1 to OLD. -/
def statusFromCmp (k : Int) : String :=
  if k = -1 then "NEW" else if k = 0 then "SAME" else "OLD"

/-- C5: for every not-yet-classified package that is in neither override
list, `compare_one` returns ERROR with `nvr1` absent when source1 has no
build; otherwise NONE with `nvr1` from build1 and `nvr2` absent when
source2 has no build; otherwise the comparator result mapped -1 to NEW,
0 to SAME, 1 to OLD with both nvr fields set. -/
theorem compare_one_fresh_rules (C : Comparison) (g : Globals) (p : String)
    (hm : dictLookup p C.results = none) (hp : p ∉ C.pplace) (hn : p ∉ C.nosync) :
    C.compare_one g p =
      match (C.source1.get_build p).1, (C.source2.get_build p).1 with
      | none, b2 => { status := "ERROR", nvr1 := none, nvr2 := b2.map Build.nvr }
      | some b1, none => { status := "NONE", nvr1 := some b1.nvr, nvr2 := none }
      | some b1, some b2 =>
        { status := statusFromCmp (compare_builds b1 b2),
          nvr1 := some b1.nvr, nvr2 := some b2.nvr } := by
  unfold Comparison.compare_one Comparison.compare_oneAcc
  rw [hm]
  simp only [if_neg hp, if_neg hn]
  cases h1 : (C.source1.get_build p).1 with
  | none => cases h2 : (C.source2.get_build p).1 <;> rfl
  | some b1 =>
    cases h2 : (C.source2.get_build p).1 with
    | none => rfl
    | some b2 =>
      have hcb : compare_builds b1 b2 = ordToInt (labelCompare (evr b1) (evr b2)) := rfl
      cases hlc : labelCompare (evr b1) (evr b2) <;>
        simp [compare_builds, hlc, ordToInt, Comparison.statusOf, statusFromCmp]

/-- Fixture for C5: a fresh package known to neither backend. -/
def compC5 : Comparison :=
  { content := ["a"], source1 := liveSourceC1, source2 := liveSourceC1,
    pplace := ["pp"], nosync := ["ns"], results := [] }

/-- Fixture globals: the script's module-global `content`. -/
def globalsW : Globals := { content := ["a"] }

/-- C5 witness: the rule chain evaluated on a concrete fresh package. -/
theorem compare_one_fresh_rules_witness :
    compC5.compare_one globalsW "a" =
      match (compC5.source1.get_build "a").1, (compC5.source2.get_build "a").1 with
      | none, b2 => { status := "ERROR", nvr1 := none, nvr2 := b2.map Build.nvr }
      | some b1, none => { status := "NONE", nvr1 := some b1.nvr, nvr2 := none }
      | some b1, some b2 =>
        { status := statusFromCmp (compare_builds b1 b2),
          nvr1 := some b1.nvr, nvr2 := some b2.nvr } :=
  compare_one_fresh_rules compC5 globalsW "a" rfl (by decide) (by decide)

/-! ## C6 — placeholder overrides the excluded list -/

/-- C6: a not-yet-classified package on both override lists classifies as
PPLACE, whatever the two sources hold (rule a fires before rule b). -/
theorem compare_one_pplace_overrides (C : Comparison) (g : Globals) (p : String)
    (hm : dictLookup p C.results = none) (hp : p ∈ C.pplace) (hn : p ∈ C.nosync) :
    (C.compare_one g p).status = "PPLACE" := by
  unfold Comparison.compare_one Comparison.compare_oneAcc
  rw [hm]
  simp [if_pos hp, Comparison.statusOf]

/-- Fixture for C6: a package on both override lists, with a build present
on the live second source. -/
def compC6 : Comparison :=
  { content := ["a"],
    source1 := liveSourceC1,
    source2 := { byPackage := fun _ => [buildC4], allBuilds := [], cache := [] },
    pplace := ["a"], nosync := ["a"], results := [] }

/-- C6 witness: the override evaluated on a concrete package on both
lists. -/
theorem compare_one_pplace_overrides_witness :
    (compC6.compare_one globalsW "a").status = "PPLACE" :=
  compare_one_pplace_overrides compC6 globalsW "a" rfl (by decide) (by decide)

/-! ## C2 — `compare_one` does not memoize -/

/-- Fixture for C2: a fresh package, empty results map. -/
def compC2 : Comparison :=
  { content := ["a"], source1 := liveSourceC1, source2 := liveSourceC1,
    pplace := [], nosync := [], results := [] }

/-- C2 counterexample: `compare_one` never stores into `self.results`
(storage happens only in `compare_content` / `add_extras`), so after a
first call on a fresh package the state is unchanged and a second call
repeats the work: both invocations issue two `get_build` calls, refuting
"the second call performs no additional backend access". -/
theorem classify_twice_counterexample :
    classifyTwiceAccesses compC2 globalsW "a" = (2, 2) ∧
    dictLookup "a" compC2.results = none :=
  ⟨rfl, rfl⟩

/-- C2 (amended): `compare_one` returns a stored record with zero
`get_build` calls only when the record is already in `results` (stored
there by `compare_content`); the method itself never stores, so a repeated
direct call recomputes the (deterministically identical) record with two
further `get_build` calls. -/
theorem compare_one_memoized (C : Comparison) (g : Globals) (p : String) (r : Record)
    (h : dictLookup p C.results = some r) :
    C.compare_oneAcc g p = (r, 0) := by
  unfold Comparison.compare_oneAcc
  rw [h]

/-- Fixture for the C2 witness: one record already stored. -/
def compC2w : Comparison :=
  { content := ["a"], source1 := liveSourceC1, source2 := liveSourceC1,
    pplace := [], nosync := [],
    results := [("a", { status := "SAME", nvr1 := some "a-1-1", nvr2 := some "a-1-1" })] }

/-- C2 witness: the amended statement evaluated on a stored record. -/
theorem compare_one_memoized_witness :
    compC2w.compare_oneAcc globalsW "a" =
      ({ status := "SAME", nvr1 := some "a-1-1", nvr2 := some "a-1-1" }, 0) :=
  compare_one_memoized compC2w globalsW "a" _ rfl

/-! ## Lemmas on the extras fold and on `compare_content` -/

theorem dictLookup_mem_keys {α : Type} (p : String) (d : Dict α) (r : α)
    (h : dictLookup p d = some r) : p ∈ dictKeys d := by
  induction d with
  | nil => simp [dictLookup] at h
  | cons kv rest ih =>
    obtain ⟨k1, v1⟩ := kv
    rw [dictKeys_cons, List.mem_cons]
    by_cases h1 : k1 = p
    · exact Or.inl h1.symm
    · simp only [dictLookup, if_neg h1] at h
      exact Or.inr (ih h)

/-- The extras-building fold, characterized as append of a map over a
filter, for caches with unique keys and fresh relative to the
accumulator. -/
theorem extras_fold_eq (cond : String × Build → Prop) [DecidablePred cond]
    (f : String × Build → Record) (cache : List (String × Build)) (acc : Dict Record)
    (hnd : (dictKeys cache).Nodup)
    (hdisj : ∀ k, k ∈ dictKeys cache → k ∉ dictKeys acc) :
    cache.foldl (fun ex pb => if cond pb then dictInsert pb.1 (f pb) ex else ex) acc =
      acc ++ (cache.filter fun pb => decide (cond pb)).map (fun pb => (pb.1, f pb)) := by
  induction cache generalizing acc with
  | nil => simp
  | cons pb rest ih =>
    rw [dictKeys_cons] at hnd hdisj
    have hhead : pb.1 ∉ dictKeys rest := (List.nodup_cons.mp hnd).1
    have hrest : (dictKeys rest).Nodup := (List.nodup_cons.mp hnd).2
    by_cases hc : cond pb
    · have hfresh : pb.1 ∉ dictKeys acc := hdisj pb.1 (List.mem_cons_self _ _)
      simp only [List.foldl_cons, if_pos hc]
      rw [dictInsert_fresh _ _ _ hfresh,
        ih (acc ++ [(pb.1, f pb)]) hrest ?_, List.filter_cons_of_pos (by simpa using hc)]
      · simp
      · intro k hk
        simp only [dictKeys, List.map_append, List.mem_append, List.map_cons,
          List.map_nil, List.mem_singleton]
        push_neg
        refine ⟨hdisj k (List.mem_cons_of_mem _ hk), ?_⟩
        intro he
        exact hhead (he ▸ hk)
    · simp only [List.foldl_cons, if_neg hc]
      rw [ih acc hrest (fun k hk => hdisj k (List.mem_cons_of_mem _ hk)),
        List.filter_cons_of_neg (by simpa using hc)]

/-- Every key of the extras fold comes from the accumulator or from a cache
entry satisfying the condition (no uniqueness needed). -/
theorem keys_extras_fold_cond (cond : String × Build → Prop) [DecidablePred cond]
    (f : String × Build → Record) (cache : List (String × Build)) (acc : Dict Record)
    (p : String)
    (h : p ∈ dictKeys (cache.foldl
      (fun ex pb => if cond pb then dictInsert pb.1 (f pb) ex else ex) acc)) :
    p ∈ dictKeys acc ∨ ∃ b, (p, b) ∈ cache ∧ cond (p, b) := by
  induction cache generalizing acc with
  | nil => exact Or.inl h
  | cons pb rest ih =>
    simp only [List.foldl_cons] at h
    by_cases hc : cond pb
    · rw [if_pos hc] at h
      rcases ih (dictInsert pb.1 (f pb) acc) h with h1 | h1
      · rcases (mem_dictKeys_dictInsert _ _ _ _).mp h1 with h2 | h2
        · subst h2
          exact Or.inr ⟨pb.2, List.mem_cons_self _ _, hc⟩
        · exact Or.inl h2
      · obtain ⟨b, hb, hcb⟩ := h1
        exact Or.inr ⟨b, List.mem_cons_of_mem _ hb, hcb⟩
    · rw [if_neg hc] at h
      rcases ih acc h with h1 | h1
      · exact Or.inl h1
      · obtain ⟨b, hb, hcb⟩ := h1
        exact Or.inr ⟨b, List.mem_cons_of_mem _ hb, hcb⟩

/-- A `classify_store` fold touches only `results`. -/
theorem classify_fold_preserves (g : Globals) (l : List String) (C : Comparison) :
    (l.foldl (fun acc p => acc.classify_store g p) C).content = C.content ∧
    (l.foldl (fun acc p => acc.classify_store g p) C).source1 = C.source1 ∧
    (l.foldl (fun acc p => acc.classify_store g p) C).source2 = C.source2 ∧
    (l.foldl (fun acc p => acc.classify_store g p) C).pplace = C.pplace ∧
    (l.foldl (fun acc p => acc.classify_store g p) C).nosync = C.nosync := by
  induction l generalizing C with
  | nil => exact ⟨rfl, rfl, rfl, rfl, rfl⟩
  | cons q rest ih =>
    simp only [List.foldl_cons]
    exact ih (C.classify_store g q)

/-- A key is in the results of a `classify_store` fold iff it was there
before or is one of the processed packages. -/
theorem mem_keys_classify_fold (g : Globals) (l : List String) (C : Comparison)
    (p : String) :
    p ∈ dictKeys ((l.foldl (fun acc q => acc.classify_store g q) C).results) ↔
      p ∈ dictKeys C.results ∨ p ∈ l := by
  induction l generalizing C with
  | nil => simp
  | cons q rest ih =>
    simp only [List.foldl_cons, List.mem_cons]
    rw [ih (C.classify_store g q)]
    have hq : p ∈ dictKeys ((C.classify_store g q).results) ↔
        p = q ∨ p ∈ dictKeys C.results :=
      mem_dictKeys_dictInsert p q _ C.results
    rw [hq]
    tauto

/-- The key set produced by `compare_content`: old keys, then placeholder
packages, then the module-global content. -/
theorem mem_keys_compare_content (C : Comparison) (g : Globals) (p : String) :
    p ∈ dictKeys ((C.compare_content g).results) ↔
      p ∈ dictKeys C.results ∨ p ∈ C.pplace ∨ p ∈ g.content := by
  unfold Comparison.compare_content
  rw [mem_keys_classify_fold, mem_keys_classify_fold]
  tauto

/-- `compare_content` leaves `content` and `pplace` untouched. -/
theorem compare_content_preserves (C : Comparison) (g : Globals) :
    (C.compare_content g).content = C.content ∧
    (C.compare_content g).pplace = C.pplace := by
  unfold Comparison.compare_content
  constructor
  · exact (classify_fold_preserves g g.content _).1.trans
      (classify_fold_preserves g C.pplace C).1
  · exact (classify_fold_preserves g g.content _).2.2.2.1.trans
      (classify_fold_preserves g C.pplace C).2.2.2.1

/-! ## C7 — the extras pass emits exactly the uncovered cache keys -/

/-- C7: with unique cache keys (the dict invariant), `add_extras` returns
exactly one record per cache key that is neither in `content` nor in the
placeholder list — status EXTRA, `nvr1` absent, `nvr2` the cached build's
nvr, in cache order — and its key set has no duplicates (each such package
appears exactly once and no other package appears). -/
theorem add_extras_exact (C : Comparison) (h : (dictKeys C.source2.cache).Nodup) :
    C.add_extras.1 =
      (C.source2.cache.filter fun pb =>
          decide (pb.1 ∉ C.content ∧ pb.1 ∉ C.pplace)).map
        (fun pb => (pb.1, { status := "EXTRA", nvr1 := none, nvr2 := some pb.2.nvr })) ∧
    (dictKeys C.add_extras.1).Nodup := by
  have he : C.add_extras.1 =
      (C.source2.cache.filter fun pb =>
          decide (pb.1 ∉ C.content ∧ pb.1 ∉ C.pplace)).map
        (fun pb => (pb.1, { status := "EXTRA", nvr1 := none, nvr2 := some pb.2.nvr })) := by
    have h2 := extras_fold_eq (fun pb => pb.1 ∉ C.content ∧ pb.1 ∉ C.pplace)
      (fun pb => { status := (Comparison.statusOf (-3)).getD "",
                   nvr1 := none, nvr2 := some pb.2.nvr })
      C.source2.cache [] h (by simp [dictKeys])
    simpa using h2
  refine ⟨he, ?_⟩
  rw [he]
  have hk : dictKeys ((C.source2.cache.filter fun pb =>
        decide (pb.1 ∉ C.content ∧ pb.1 ∉ C.pplace)).map
          (fun pb => (pb.1,
            ({ status := "EXTRA", nvr1 := none, nvr2 := some pb.2.nvr } : Record)))) =
      (C.source2.cache.filter fun pb =>
        decide (pb.1 ∉ C.content ∧ pb.1 ∉ C.pplace)).map Prod.fst := by
    simp [dictKeys, List.map_map]
  rw [hk]
  exact ((List.filter_sublist _).map Prod.fst).nodup h

/-- Fixture for C7: one extra build and one covered build in the cache. -/
def buildE1 : Build := { name := "e1", nvr := "e1-2-1", version := "2", release := "1" }

/-- Fixture for C7. -/
def buildA1 : Build := { name := "a", nvr := "a-1-1", version := "1", release := "1" }

/-- Fixture for C7: source2 cached with an uncovered and a covered build. -/
def compC7 : Comparison :=
  { content := ["a"],
    source1 := liveSourceC1,
    source2 := { byPackage := fun _ => [], allBuilds := [],
                 cache := [("e1", buildE1), ("a", buildA1)] },
    pplace := [], nosync := [], results := [] }

/-- C7 witness: the exact-extras statement evaluated on `compC7`. -/
theorem add_extras_exact_witness :
    compC7.add_extras.1 =
      (compC7.source2.cache.filter fun pb =>
          decide (pb.1 ∉ compC7.content ∧ pb.1 ∉ compC7.pplace)).map
        (fun pb => (pb.1, { status := "EXTRA", nvr1 := none, nvr2 := some pb.2.nvr })) ∧
    (dictKeys compC7.add_extras.1).Nodup :=
  add_extras_exact compC7 (by decide)

/-! ## C8 — the extras pass never clobbers a classified package -/

/-- C8: in the script's flow (fresh engine, the module-global `content`
being the engine's own content), every record stored by `compare_content`
is still mapped to the identical record after `add_extras` — so `results`
never shrinks and no classified key is overwritten. -/
theorem add_extras_preserves_classified (C : Comparison) (g : Globals) (p : String)
    (r : Record) (hg : g.content = C.content) (h0 : C.results = [])
    (hp : dictLookup p ((C.compare_content g).results) = some r) :
    dictLookup p (((C.compare_content g).add_extras).2.results) = some r := by
  show dictLookup p
    (dictUpdate ((C.compare_content g).results) ((C.compare_content g).add_extras).1) = some r
  rw [dictLookup_dictUpdate_not_mem _ _ _ ?hnot]
  · exact hp
  case hnot =>
    intro hmem
    have hcond := keys_extras_fold_cond
      (fun pb => pb.1 ∉ (C.compare_content g).content ∧
        pb.1 ∉ (C.compare_content g).pplace)
      (fun pb => { status := (Comparison.statusOf (-3)).getD "",
                   nvr1 := none, nvr2 := some pb.2.nvr })
      ((C.compare_content g).source2.cache) [] p hmem
    rcases hcond with h1 | ⟨b, hb, hc1, hc2⟩
    · simp [dictKeys] at h1
    · have hpmem : p ∈ dictKeys ((C.compare_content g).results) :=
        dictLookup_mem_keys p _ r hp
      rw [mem_keys_compare_content, h0] at hpmem
      rcases hpmem with h2 | h2 | h2
      · simp [dictKeys] at h2
      · exact hc2 ((compare_content_preserves C g).2.symm ▸ h2)
      · refine hc1 ?_
        rw [(compare_content_preserves C g).1, ← hg]
        exact h2

/-- Fixture for C8: the script flow on a one-package content set. -/
def compC8 : Comparison :=
  { content := ["a"], source1 := liveSourceC1, source2 := liveSourceC1,
    pplace := [], nosync := [], results := [] }

/-- C8 witness: the record classified for "a" survives the extras pass. -/
theorem add_extras_preserves_classified_witness :
    dictLookup "a" (((compC8.compare_content globalsW).add_extras).2.results) =
      some { status := "ERROR", nvr1 := none, nvr2 := none } :=
  add_extras_preserves_classified compC8 globalsW "a" _ rfl rfl rfl

/-! ## C10 — `compare_content` iterates the module-global `content` -/

/-- Fixture for C10: the engine's own content is `["a"]`. -/
def compC10 : Comparison :=
  { content := ["a"], source1 := liveSourceC1, source2 := liveSourceC1,
    pplace := [], nosync := [], results := [] }

/-- Fixture for C10: a module-global `content` binding different from the
engine's. -/
def globalsC10 : Globals := { content := ["b"] }

/-- C10 counterexample: with constructor content `["a"]` but module-global
content `["b"]`, `compare_content` classifies `"b"` and not `"a"`, so the
key set of `results` is not the union of the placeholder list and the
constructor-supplied content set. -/
theorem compare_content_uses_global_counterexample :
    dictKeys ((compC10.compare_content globalsC10).results) = ["b"] ∧
    "a" ∈ compC10.content ∧
    "a" ∉ dictKeys ((compC10.compare_content globalsC10).results) :=
  ⟨rfl, by decide, by decide⟩

/-- C10 (amended): on a fresh engine the key set of `results` after
`compare_content` is the union of the placeholder list and the
module-global `content` binding — the loop reads the global, not the
engine's stored content, so the two coincide only when the global equals
the constructor argument. -/
theorem compare_content_keys_global (C : Comparison) (g : Globals) (p : String)
    (h0 : C.results = []) :
    p ∈ dictKeys ((C.compare_content g).results) ↔ p ∈ C.pplace ∨ p ∈ g.content := by
  rw [mem_keys_compare_content, h0]
  simp [dictKeys]

/-- Fixture for the C10 witness. -/
def compC10w : Comparison :=
  { content := ["a"], source1 := liveSourceC1, source2 := liveSourceC1,
    pplace := ["pp"], nosync := [], results := [] }

/-- C10 witness: the amended key-set statement evaluated concretely. -/
theorem compare_content_keys_global_witness :
    "b" ∈ dictKeys ((compC10w.compare_content globalsC10).results) ↔
      "b" ∈ compC10w.pplace ∨ "b" ∈ globalsC10.content :=
  compare_content_keys_global compC10w globalsC10 "b" rfl

/-! ## Lemmas on the `evr` substitution scan -/

theorem lengthDropWhileLe (p : Char → Bool) (l : List Char) :
    (l.dropWhile p).length ≤ l.length := by
  induction l with
  | nil => simp
  | cons c rest ih =>
    by_cases h : p c
    · simp only [List.dropWhile, h]
      exact ih.trans (Nat.le_succ _)
    · simp only [List.dropWhile, Bool.not_eq_true] at *
      simp [h]

theorem tagAt_length (l r : List Char) (h : tagAt l = some r) : r.length ≤ l.length := by
  unfold tagAt at h
  split_ifs at h with h1 h2 h3 <;>
    (injection h with h4
     rw [← h4]
     calc _ ≤ (l.drop _).length := lengthDropWhileLe _ _
     _ ≤ l.length := by rw [List.length_drop]; omega)

/-- Any fuel at least the list length gives the scan's fixed behaviour. -/
theorem subDistF_fuel (m : Nat) (l : List Char) (hl : l.length ≤ m) :
    subDistF m l = subDistF l.length l := by
  induction m using Nat.strong_induction_on generalizing l with
  | _ m ih =>
    match m, l with
    | 0, l =>
      have h0 : l = [] := List.eq_nil_of_length_eq_zero (Nat.le_zero.mp hl)
      subst h0
      rfl
    | m1 + 1, [] => rfl
    | m1 + 1, c :: rest =>
      have hrest : rest.length ≤ m1 := by simpa using hl
      show subDistF (m1 + 1) (c :: rest) = subDistF (rest.length + 1) (c :: rest)
      by_cases hc : c = '\n'
      · simp only [subDistF, if_pos hc]
        rw [ih m1 (Nat.lt_succ_self _) rest hrest,
          ih rest.length (Nat.lt_succ_of_le hrest) rest (Nat.le_refl _)]
      · cases ht : tagAt rest with
        | none =>
          simp only [subDistF, if_neg hc, ht]
          rw [ih m1 (Nat.lt_succ_self _) rest hrest,
            ih rest.length (Nat.lt_succ_of_le hrest) rest (Nat.le_refl _)]
        | some rest1 =>
          simp only [subDistF, if_neg hc, ht]
          have h1 : rest1.length ≤ rest.length := tagAt_length rest rest1 ht
          rw [ih m1 (Nat.lt_succ_self _) rest1 (h1.trans hrest),
            ih rest.length (Nat.lt_succ_of_le hrest) rest1 h1]

/-- Scan equation: a match at the current position drops it and resumes
after the matched text. -/
theorem subDist_cons_match (c : Char) (rest rest1 : List Char) (hc : ¬ c = '\n')
    (h : tagAt rest = some rest1) : subDist (c :: rest) = subDist rest1 := by
  show subDistF (rest.length + 1) (c :: rest) = subDist rest1
  simp only [subDistF, if_neg hc, h]
  exact subDistF_fuel rest.length rest1 (tagAt_length rest rest1 h)

/-- Scan equation: no match at the current position keeps the character. -/
theorem subDist_cons_nomatch (c : Char) (rest : List Char)
    (h : tagAt rest = none ∨ c = '\n') : subDist (c :: rest) = c :: subDist rest := by
  show subDistF (rest.length + 1) (c :: rest) = c :: subDist rest
  by_cases hc : c = '\n'
  · simp only [subDistF, if_pos hc]
    rfl
  · rcases h with h | h
    · simp only [subDistF, if_neg hc, h]
      rfl
    · exact absurd h hc

theorem dropWhile_all_digits (d : List Char) (h : d.all Char.isDigit = true) :
    d.dropWhile Char.isDigit = [] := by
  induction d with
  | nil => rfl
  | cons c rest ih =>
    simp only [List.all_cons, Bool.and_eq_true] at h
    simp [List.dropWhile, h.1, ih h.2]

/-- A tag cannot start inside text where no tag starts and continue across
a following literal dot (no tag letter equals a dot). -/
theorem tagAt_append_dot (s w : List Char) (h : tagAt s = none) :
    tagAt (s ++ '.' :: w) = none := by
  cases s with
  | nil => simp [tagAt]
  | cons a s1 =>
    cases s1 with
    | nil => simp [tagAt]
    | cons b s2 =>
      cases s2 with
      | nil =>
        unfold tagAt at h ⊢
        split_ifs at h ⊢ with h1 h2 h3 <;> simp_all
      | cons c3 s3 =>
        unfold tagAt at h ⊢
        split_ifs at h ⊢ with h1 h2 h3 <;> simp_all

/-- A distribution tag followed by nothing but digits matches completely. -/
theorem tagAt_tag_digits (t d : List Char)
    (ht : t = ['f', 'c'] ∨ t = ['e', 'l', 'n'] ∨ t = ['e', 'l'])
    (hd : d.all Char.isDigit = true) :
    tagAt (t ++ d) = some [] := by
  rcases ht with h | h | h <;> subst h
  · simp [tagAt, dropWhile_all_digits d hd]
  · simp [tagAt, dropWhile_all_digits d hd]
  · cases d with
    | nil => simp [tagAt]
    | cons x d1 =>
      simp only [List.all_cons, Bool.and_eq_true] at hd
      have hx : ¬ x = 'n' := fun he => by rw [he] at hd; exact absurd hd.1 (by decide)
      simp [tagAt, hx, List.dropWhile, hd.1, dropWhile_all_digits d1 hd.2]

/-- Over a prefix with no match the scan copies characters verbatim up to a
literal dot. -/
theorem subDist_append_dot (s w : List Char) (hs : hasTag s = false) :
    subDist (s ++ '.' :: w) = s ++ subDist ('.' :: w) := by
  induction s with
  | nil => rfl
  | cons c s1 ih =>
    simp only [hasTag, Bool.or_eq_false_iff, Bool.and_eq_false_iff] at hs
    have hs1 : hasTag s1 = false := hs.2
    have hsub : subDist (s1 ++ '.' :: w) = s1 ++ subDist ('.' :: w) := ih hs1
    show subDist (c :: (s1 ++ '.' :: w)) = c :: (s1 ++ subDist ('.' :: w))
    rcases hs.1 with h | h
    · have hc : c = '\n' := by
        by_contra hcn
        rw [decide_eq_false_iff_not] at h
        exact h hcn
      rw [subDist_cons_nomatch c _ (Or.inr hc), hsub]
    · have ht : tagAt s1 = none := by
        cases hh : tagAt s1 with
        | none => rfl
        | some r => rw [hh] at h; exact absurd h (by simp)
      rw [subDist_cons_nomatch c _ (Or.inl (tagAt_append_dot s1 ('.' :: w) ht ▸
        tagAt_append_dot s1 w ht)), hsub]

/-! ## C3 — the `evr` normalization -/

/-- Fixture for C3: a release whose dist tag sits in a non-trailing
position. -/
def buildC3 : Build :=
  { name := "x", nvr := "x-1-1.fc33.2", version := "1", release := "1.fc33.2" }

/-- C3 counterexample: the release `"1.fc33.2"` has no *trailing* dist tag
(its trailing component is `".2"`), so the claim says `evr` returns it
unchanged; the code's `re.sub` removes the non-trailing `".fc33"` and
returns `"1.2"`. -/
theorem evr_counterexample :
    evr buildC3 = ("0", "1", "1.2") ∧ ("1.2" : String) ≠ "1.fc33.2" :=
  ⟨by decide, by decide⟩

/-- C3 (amended): `evr` forces epoch `"0"`, keeps the version, and removes
dist-tag occurrences from the release by a left-to-right `re.sub` scan, not
only in trailing position: whenever the release splits as
`s ++ "." ++ tag ++ digits` with `tag` one of `fc`, `eln`, `el`, a possibly
empty digit run, and no match inside `s`, the result is exactly `s`. -/
theorem evr_strips_dist_tag (b : Build) (s t d : List Char)
    (ht : t = ['f', 'c'] ∨ t = ['e', 'l', 'n'] ∨ t = ['e', 'l'])
    (hd : d.all Char.isDigit = true)
    (hs : hasTag s = false)
    (hr : b.release.data = s ++ '.' :: (t ++ d)) :
    evr b = ("0", b.version, String.mk s) := by
  unfold evr
  refine congrArg (fun z => ("0", b.version, z)) ?_
  rw [hr, subDist_append_dot s (t ++ d) hs,
    subDist_cons_match '.' (t ++ d) [] (by decide) (tagAt_tag_digits t d ht hd)]
  simp [subDist, subDistF]

/-- Fixture for the C3 witness: release `"3.eln121"`. -/
def buildC3w : Build :=
  { name := "y", nvr := "y-2-3.eln121", version := "2", release := "3.eln121" }

/-- C3 witness: the amended statement evaluated on release `"3.eln121"`. -/
theorem evr_strips_dist_tag_witness :
    evr buildC3w = ("0", "2", String.mk ['3']) :=
  evr_strips_dist_tag buildC3w ['3'] ['e', 'l', 'n'] ['1', '2', '1']
    (Or.inr (Or.inl rfl)) (by decide) (by decide) (by decide)
